import Mathlib

/-!
Verification of the MomentumTrackerAdmin core algorithms: the floor-plan
GPS-to-pixel calibration (`buildTransform` / `solveLinear3`), the ray-casting
point-in-polygon classifier, the recurring-task date logic
(`doesRuleApplyToDate`, `getDaysInRange`) and the recurring-assignment
materializer (`ensureRecurringAssignments`), together with the floor-plan
worker-dot placement logic.

JavaScript `number` arithmetic is modelled over `ℚ` (exact arithmetic);
the code's numeric literals (`1e-10`, `1e-12`, `-0.1`, `1.1`) become the
corresponding rationals.  Calendar-date strings `"YYYY-MM-DD"` are modelled
by their numeric components; the code's lexicographic string comparison is
the lexicographic comparison of the components, which agrees with it on
canonical fixed-width date strings.
-/

namespace MomentumTracker

/-- A 3-vector of rationals; also used as one row of a 3×3 matrix
(entries `a`, `b`, `c` are columns 0, 1, 2). -/
@[ext]
structure Vec3 where
  a : ℚ
  b : ℚ
  c : ℚ
deriving DecidableEq

/-- A 3×3 matrix of rationals, rows `r0`, `r1`, `r2`. -/
@[ext]
structure Mat3 where
  r0 : Vec3
  r1 : Vec3
  r2 : Vec3
deriving DecidableEq

/-- Dot product of two 3-vectors. -/
def Vec3.dot (u v : Vec3) : ℚ := u.a * v.a + u.b * v.b + u.c * v.c

/-- `x` solves the linear system `M ⬝ x = v`. -/
def solves (M : Mat3) (v : Vec3) (x : Vec3) : Prop :=
  M.r0.dot x = v.a ∧ M.r1.dot x = v.b ∧ M.r2.dot x = v.c

instance (M : Mat3) (v x : Vec3) : Decidable (solves M v x) := by
  unfold solves; infer_instance

/-- The singularity threshold `1e-12` from `solveLinear3`. -/
def eps12 : ℚ := 1 / 10 ^ 12

/-- Partial-pivot row selection for column 0: scan rows 1 and 2 for a
strictly larger absolute value in column 0 and swap the winner into row 0
(mirrors the `maxRow` scan and row/rhs swap in `solveLinear3`). -/
def swap0 (M : Mat3) (v : Vec3) : Mat3 × Vec3 :=
  if |M.r1.a| > |M.r0.a| then
    if |M.r2.a| > |M.r1.a| then (⟨M.r2, M.r1, M.r0⟩, ⟨v.c, v.b, v.a⟩)
    else (⟨M.r1, M.r0, M.r2⟩, ⟨v.b, v.a, v.c⟩)
  else
    if |M.r2.a| > |M.r0.a| then (⟨M.r2, M.r1, M.r0⟩, ⟨v.c, v.b, v.a⟩)
    else (M, v)

/-- Partial-pivot row selection for column 1: swap rows 1 and 2 when row 2
has the strictly larger absolute value in column 1. -/
def swap1 (M : Mat3) (v : Vec3) : Mat3 × Vec3 :=
  if |M.r2.b| > |M.r1.b| then (⟨M.r0, M.r2, M.r1⟩, ⟨v.a, v.c, v.b⟩) else (M, v)

/-- Elimination step for column 0: subtract `M[row][0]/M[0][0]` times row 0
from rows 1 and 2 (columns 0..2), and likewise for the right-hand side. -/
def elim0 (M : Mat3) (v : Vec3) : Mat3 × Vec3 :=
  let f1 := M.r1.a / M.r0.a
  let f2 := M.r2.a / M.r0.a
  (⟨M.r0,
    ⟨M.r1.a - f1 * M.r0.a, M.r1.b - f1 * M.r0.b, M.r1.c - f1 * M.r0.c⟩,
    ⟨M.r2.a - f2 * M.r0.a, M.r2.b - f2 * M.r0.b, M.r2.c - f2 * M.r0.c⟩⟩,
   ⟨v.a, v.b - f1 * v.a, v.c - f2 * v.a⟩)

/-- Elimination step for column 1: subtract `M[2][1]/M[1][1]` times row 1
from row 2 (columns 1..2 only, as in the source's inner loop). -/
def elim1 (M : Mat3) (v : Vec3) : Mat3 × Vec3 :=
  let f := M.r2.b / M.r1.b
  (⟨M.r0, M.r1, ⟨M.r2.a, M.r2.b - f * M.r1.b, M.r2.c - f * M.r1.c⟩⟩,
   ⟨v.a, v.b, v.c - f * v.b⟩)

/-- Back substitution on the (by now upper-triangular) system. -/
def backSub (M : Mat3) (v : Vec3) : Vec3 :=
  let x2 := v.c / M.r2.c
  let x1 := (v.b - M.r1.c * x2) / M.r1.b
  let x0 := (v.a - M.r0.b * x1 - M.r0.c * x2) / M.r0.a
  ⟨x0, x1, x2⟩

/-- Gaussian elimination with partial pivoting for a 3×3 system `A x = b`;
returns `none` when a pivot's absolute value falls below `1e-12`
(embeds `solveLinear3` from the floor-plan calibration module). -/
def solveLinear3 (A : Mat3) (b : Vec3) : Option Vec3 :=
  let P1 := swap0 A b
  if |P1.1.r0.a| < eps12 then none
  else
    let P2 := elim0 P1.1 P1.2
    let P3 := swap1 P2.1 P2.2
    if |P3.1.r1.b| < eps12 then none
    else
      let P4 := elim1 P3.1 P3.2
      if |P4.1.r2.c| < eps12 then none
      else some (backSub P4.1 P4.2)

lemma swap0_solves (M : Mat3) (v : Vec3) (x : Vec3) :
    solves (swap0 M v).1 (swap0 M v).2 x ↔ solves M v x := by
  unfold swap0 solves
  split_ifs <;> simp <;> tauto

lemma swap1_solves (M : Mat3) (v : Vec3) (x : Vec3) :
    solves (swap1 M v).1 (swap1 M v).2 x ↔ solves M v x := by
  unfold swap1 solves
  split_ifs <;> simp <;> tauto

lemma elim0_solves (M : Mat3) (v : Vec3) (x : Vec3) :
    solves (elim0 M v).1 (elim0 M v).2 x ↔ solves M v x := by
  unfold elim0 solves Vec3.dot
  simp only
  constructor
  · rintro ⟨h0, h1, h2⟩
    refine ⟨h0, ?_, ?_⟩
    · linear_combination h1 + (M.r1.a / M.r0.a) * h0
    · linear_combination h2 + (M.r2.a / M.r0.a) * h0
  · rintro ⟨h0, h1, h2⟩
    refine ⟨h0, ?_, ?_⟩
    · linear_combination h1 - (M.r1.a / M.r0.a) * h0
    · linear_combination h2 - (M.r2.a / M.r0.a) * h0

lemma elim1_solves (M : Mat3) (v : Vec3) (x : Vec3) (ha : M.r1.a = 0) :
    solves (elim1 M v).1 (elim1 M v).2 x ↔ solves M v x := by
  unfold elim1 solves Vec3.dot
  simp only
  constructor
  · rintro ⟨h0, h1, h2⟩
    refine ⟨h0, h1, ?_⟩
    linear_combination h2 + (M.r2.b / M.r1.b) * h1 - (M.r2.b / M.r1.b * x.a) * ha
  · rintro ⟨h0, h1, h2⟩
    refine ⟨h0, h1, ?_⟩
    linear_combination h2 - (M.r2.b / M.r1.b) * h1 + (M.r2.b / M.r1.b * x.a) * ha

/-- An upper-triangular predicate for the eliminated matrix. -/
def upperTri (M : Mat3) : Prop :=
  M.r1.a = 0 ∧ M.r2.a = 0 ∧ M.r2.b = 0

lemma backSub_solves (M : Mat3) (v : Vec3) (ht : upperTri M)
    (h0 : M.r0.a ≠ 0) (h1 : M.r1.b ≠ 0) (h2 : M.r2.c ≠ 0) :
    solves M v (backSub M v) := by
  obtain ⟨t1, t2, t3⟩ := ht
  unfold backSub solves Vec3.dot
  refine ⟨?_, ?_, ?_⟩ <;> simp only [t1, t2, t3] <;> field_simp <;> ring

lemma backSub_unique (M : Mat3) (v : Vec3) (ht : upperTri M)
    (h0 : M.r0.a ≠ 0) (h1 : M.r1.b ≠ 0) (h2 : M.r2.c ≠ 0)
    (u : Vec3) (hu : solves M v u) : u = backSub M v := by
  obtain ⟨t1, t2, t3⟩ := ht
  obtain ⟨e0, e1, e2⟩ := hu
  unfold Vec3.dot at e0 e1 e2
  rw [t1] at e1
  rw [t2, t3] at e2
  have hc : u.c = v.c / M.r2.c := by field_simp; linarith
  have hb : u.b = (v.b - M.r1.c * (v.c / M.r2.c)) / M.r1.b := by
    rw [← hc]; field_simp; linarith
  have ha : u.a = (v.a - M.r0.b * ((v.b - M.r1.c * (v.c / M.r2.c)) / M.r1.b)
      - M.r0.c * (v.c / M.r2.c)) / M.r0.a := by
    rw [← hb, ← hc]; field_simp; linarith
  unfold backSub
  ext <;> simp only [ha, hb, hc]

lemma abs_ge_eps_ne_zero {p : ℚ} (h : ¬ |p| < eps12) : p ≠ 0 := by
  intro h0
  apply h
  rw [h0]
  norm_num [eps12]

/-- When `solveLinear3` succeeds, the pipeline of swaps and eliminations it
went through, with the pivot facts recorded. -/
lemma solveLinear3_eq_some (A : Mat3) (b : Vec3) (x : Vec3)
    (h : solveLinear3 A b = some x) :
    let P1 := swap0 A b
    let P2 := elim0 P1.1 P1.2
    let P3 := swap1 P2.1 P2.2
    let P4 := elim1 P3.1 P3.2
    ¬ |P1.1.r0.a| < eps12 ∧ ¬ |P3.1.r1.b| < eps12 ∧ ¬ |P4.1.r2.c| < eps12 ∧
      x = backSub P4.1 P4.2 := by
  intro P1 P2 P3 P4
  unfold solveLinear3 at h
  simp only [show swap0 A b = P1 from rfl] at h
  by_cases c1 : |P1.1.r0.a| < eps12
  · simp [c1] at h
  simp only [c1, if_false] at h
  simp only [show elim0 P1.1 P1.2 = P2 from rfl,
    show swap1 P2.1 P2.2 = P3 from rfl] at h
  by_cases c2 : |P3.1.r1.b| < eps12
  · simp [c2] at h
  simp only [c2, if_false] at h
  simp only [show elim1 P3.1 P3.2 = P4 from rfl] at h
  by_cases c3 : |P4.1.r2.c| < eps12
  · simp [c3] at h
  simp only [c3, if_false, Option.some.injEq] at h
  exact ⟨c1, c2, c3, h.symm⟩

lemma swap0_pres0 (M : Mat3) (v : Vec3) :
    (swap0 M v).1.r0.a = M.r0.a ∨ (swap0 M v).1.r0.a = M.r1.a ∨
      (swap0 M v).1.r0.a = M.r2.a := by
  unfold swap0
  split_ifs <;> simp

lemma elim0_tri (M : Mat3) (v : Vec3) (h : M.r0.a ≠ 0) :
    (elim0 M v).1.r1.a = 0 ∧ (elim0 M v).1.r2.a = 0 := by
  unfold elim0
  constructor <;> · simp only; field_simp

lemma elim0_keep (M : Mat3) (v : Vec3) :
    (elim0 M v).1.r0 = M.r0 := rfl

lemma swap1_keep (M : Mat3) (v : Vec3) :
    (swap1 M v).1.r0 = M.r0 ∧
      ((swap1 M v).1.r1 = M.r1 ∧ (swap1 M v).1.r2 = M.r2 ∨
       (swap1 M v).1.r1 = M.r2 ∧ (swap1 M v).1.r2 = M.r1) := by
  unfold swap1
  split_ifs <;> simp

lemma elim1_tri (M : Mat3) (v : Vec3) (h : M.r1.b ≠ 0) :
    (elim1 M v).1.r2.b = 0 := by
  unfold elim1
  simp only
  field_simp

lemma elim1_keep (M : Mat3) (v : Vec3) :
    (elim1 M v).1.r0 = M.r0 ∧ (elim1 M v).1.r1 = M.r1 ∧
      (elim1 M v).1.r2.a = M.r2.a ∧ (elim1 M v).1.r2.c
        = M.r2.c - M.r2.b / M.r1.b * M.r1.c := by
  unfold elim1
  simp

/-- The eliminated matrix produced inside a successful `solveLinear3` run is
upper triangular with nonzero diagonal. -/
lemma solveLinear3_tri (A : Mat3) (b : Vec3) (x : Vec3)
    (h : solveLinear3 A b = some x) :
    let P1 := swap0 A b
    let P2 := elim0 P1.1 P1.2
    let P3 := swap1 P2.1 P2.2
    let P4 := elim1 P3.1 P3.2
    upperTri P4.1 ∧ P4.1.r0.a ≠ 0 ∧ P4.1.r1.b ≠ 0 ∧ P4.1.r2.c ≠ 0 ∧
      P3.1.r1.a = 0 ∧ x = backSub P4.1 P4.2 := by
  intro P1 P2 P3 P4
  obtain ⟨c1, c2, c3, hx⟩ := solveLinear3_eq_some A b x h
  have hp1 : P1.1.r0.a ≠ 0 := abs_ge_eps_ne_zero c1
  have h2tri := elim0_tri P1.1 P1.2 hp1
  have hs1 := swap1_keep P2.1 P2.2
  have h3a : P3.1.r1.a = 0 ∧ P3.1.r2.a = 0 := by
    rcases hs1.2 with ⟨e1, e2⟩ | ⟨e1, e2⟩
    · constructor
      · rw [show P3.1.r1 = P2.1.r1 from e1]; exact h2tri.1
      · rw [show P3.1.r2 = P2.1.r2 from e2]; exact h2tri.2
    · constructor
      · rw [show P3.1.r1 = P2.1.r2 from e1]; exact h2tri.2
      · rw [show P3.1.r2 = P2.1.r1 from e2]; exact h2tri.1
  have hp3 : P3.1.r1.b ≠ 0 := abs_ge_eps_ne_zero c2
  have h4 := elim1_keep P3.1 P3.2
  have h4tri : upperTri P4.1 := by
    refine ⟨?_, ?_, elim1_tri P3.1 P3.2 hp3⟩
    · rw [show P4.1.r1 = P3.1.r1 from h4.2.1]; exact h3a.1
    · rw [show P4.1.r2.a = P3.1.r2.a from h4.2.2.1]; exact h3a.2
  have hp0 : P4.1.r0.a ≠ 0 := by
    rw [show P4.1.r0 = P3.1.r0 from h4.1, show P3.1.r0 = P2.1.r0 from hs1.1,
      show P2.1.r0 = P1.1.r0 from elim0_keep P1.1 P1.2]
    exact hp1
  have hp1' : P4.1.r1.b ≠ 0 := by
    rw [show P4.1.r1 = P3.1.r1 from h4.2.1]; exact hp3
  exact ⟨h4tri, hp0, hp1', abs_ge_eps_ne_zero c3, h3a.1, hx⟩

/-- Correctness of the Gaussian elimination: a returned vector solves the
original system. -/
theorem solveLinear3_solves (A : Mat3) (b : Vec3) (x : Vec3)
    (h : solveLinear3 A b = some x) : solves A b x := by
  obtain ⟨htri, hp0, hp1, hp2, h3a1, hx⟩ := solveLinear3_tri A b x h
  rw [← swap0_solves, ← elim0_solves, ← swap1_solves, ← elim1_solves _ _ x h3a1, hx]
  exact backSub_solves _ _ htri hp0 hp1 hp2

/-- Uniqueness: any solution of the original system equals the returned
vector (the successful pivots make the matrix nonsingular). -/
theorem solveLinear3_unique (A : Mat3) (b : Vec3) (x : Vec3)
    (h : solveLinear3 A b = some x) (u : Vec3) (hu : solves A b u) : u = x := by
  obtain ⟨htri, hp0, hp1, hp2, h3a1, hx⟩ := solveLinear3_tri A b x h
  rw [← swap0_solves, ← elim0_solves, ← swap1_solves, ← elim1_solves _ _ u h3a1] at hu
  rw [hx]
  exact backSub_unique _ _ htri hp0 hp1 hp2 u hu

/-! ### The calibration transform (`buildTransform`) -/

/-- A calibration point: pixel coordinates in the image's natural dimensions
paired with the GPS coordinate at that pixel. -/
structure CalibrationPoint where
  px : ℚ
  py : ℚ
  lat : ℚ
  lng : ℚ
deriving DecidableEq

/-- The transform returned to callers: `(lat, lng) → {x, y} | null`. -/
abbrev Transform := ℚ → ℚ → Option (ℚ × ℚ)

/-- The degeneracy threshold `1e-10` from the 2-point branch. -/
def eps10 : ℚ := 1 / 10 ^ 10

/-- Sum of `f p` over the calibration points (the accumulations of the
least-squares loop in `buildTransform`). -/
def psum (points : List CalibrationPoint) (f : CalibrationPoint → ℚ) : ℚ :=
  (points.map f).sum

/-- The 3×3 normal-equations matrix of `buildTransform`:
rows `(Σlng², Σlng·lat, Σlng)`, `(Σlng·lat, Σlat², Σlat)`, `(Σlng, Σlat, n)`. -/
def normalMatrix (points : List CalibrationPoint) : Mat3 :=
  ⟨⟨psum points (fun p => p.lng * p.lng), psum points (fun p => p.lng * p.lat),
    psum points (fun p => p.lng)⟩,
   ⟨psum points (fun p => p.lng * p.lat), psum points (fun p => p.lat * p.lat),
    psum points (fun p => p.lat)⟩,
   ⟨psum points (fun p => p.lng), psum points (fun p => p.lat),
    (points.length : ℚ)⟩⟩

/-- Right-hand side for the x-coefficients: `(Σpx·lng, Σpx·lat, Σpx)`. -/
def rhsX (points : List CalibrationPoint) : Vec3 :=
  ⟨psum points (fun p => p.px * p.lng), psum points (fun p => p.px * p.lat),
   psum points (fun p => p.px)⟩

/-- Right-hand side for the y-coefficients: `(Σpy·lng, Σpy·lat, Σpy)`. -/
def rhsY (points : List CalibrationPoint) : Vec3 :=
  ⟨psum points (fun p => p.py * p.lng), psum points (fun p => p.py * p.lat),
   psum points (fun p => p.py)⟩

/-- The 2-point branch of `buildTransform`: per-axis linear scaling, `none`
when the two points nearly share a longitude or a latitude. -/
def twoPointTransform (p1 p2 : CalibrationPoint) (imageWidth imageHeight : ℚ) :
    Option Transform :=
  let dLng := p2.lng - p1.lng
  let dLat := p2.lat - p1.lat
  if |dLng| < eps10 ∨ |dLat| < eps10 then none
  else
    let scaleX := (p2.px - p1.px) / dLng
    let scaleY := (p2.py - p1.py) / dLat
    some (fun lat lng =>
      some ((p1.px + (lng - p1.lng) * scaleX) / imageWidth,
            (p1.py + (lat - p1.lat) * scaleY) / imageHeight))

/-- Combine the two solved coefficient triples into the affine closure;
`none` when either solve failed (the `if (!coeffX || !coeffY) return null`
test of `buildTransform`). -/
def mkAffine (imageWidth imageHeight : ℚ) :
    Option Vec3 → Option Vec3 → Option Transform
  | some cx, some cy =>
      some (fun lat lng =>
        some ((cx.a * lng + cx.b * lat + cx.c) / imageWidth,
              (cy.a * lng + cy.b * lat + cy.c) / imageHeight))
  | _, _ => none

/-- The 3-or-more-point branch of `buildTransform`: least-squares affine fit
`px = a·lng + b·lat + c`, `py = d·lng + e·lat + f` via the normal equations,
each 3×3 system solved by `solveLinear3`. -/
def leastSquaresTransform (points : List CalibrationPoint)
    (imageWidth imageHeight : ℚ) : Option Transform :=
  mkAffine imageWidth imageHeight
    (solveLinear3 (normalMatrix points) (rhsX points))
    (solveLinear3 (normalMatrix points) (rhsY points))

/-- `buildTransform`: `(lat, lng) → {x, y}` fractional-coordinate transform
from calibration points, `none` for fewer than 2 points or degenerate input. -/
def buildTransform (points : List CalibrationPoint)
    (imageWidth imageHeight : ℚ) : Option Transform :=
  match points with
  | [] => none
  | [_] => none
  | [p1, p2] => twoPointTransform p1 p2 imageWidth imageHeight
  | _ :: _ :: _ :: _ => leastSquaresTransform points imageWidth imageHeight

/-! ### Claims C2, C5, C10 -/

/-- C2: For exactly 2 calibration points whose latitudes and longitudes
each differ by more than the `1e-10` threshold, and positive image
dimensions, `buildTransform` returns a transform mapping each input GPS
coordinate back to exactly its pixel fraction. -/
theorem two_point_roundtrip (p1 p2 : CalibrationPoint) (W H : ℚ)
    (hlng : eps10 < |p2.lng - p1.lng|) (hlat : eps10 < |p2.lat - p1.lat|)
    (hW : 0 < W) (hH : 0 < H) :
    ∃ f, buildTransform [p1, p2] W H = some f ∧
      f p1.lat p1.lng = some (p1.px / W, p1.py / H) ∧
      f p2.lat p2.lng = some (p2.px / W, p2.py / H) := by
  have h1 : ¬ |p2.lng - p1.lng| < eps10 := not_lt.mpr (le_of_lt hlng)
  have h2 : ¬ |p2.lat - p1.lat| < eps10 := not_lt.mpr (le_of_lt hlat)
  have hd1 : p2.lng - p1.lng ≠ 0 := by
    intro h0; rw [h0] at hlng; simp [eps10] at hlng
    exact absurd hlng (by norm_num)
  have hd2 : p2.lat - p1.lat ≠ 0 := by
    intro h0; rw [h0] at hlat; simp [eps10] at hlat
    exact absurd hlat (by norm_num)
  refine ⟨fun lat lng =>
      some ((p1.px + (lng - p1.lng) * ((p2.px - p1.px) / (p2.lng - p1.lng))) / W,
            (p1.py + (lat - p1.lat) * ((p2.py - p1.py) / (p2.lat - p1.lat))) / H),
    ?_, ?_, ?_⟩
  · show twoPointTransform p1 p2 W H = _
    simp only [twoPointTransform]
    rw [if_neg (by push_neg; exact ⟨not_lt.1 h1, not_lt.1 h2⟩)]
  · simp only [sub_self, zero_mul, add_zero]
  · have e1 : p1.px + (p2.lng - p1.lng) * ((p2.px - p1.px) / (p2.lng - p1.lng))
        = p2.px := by field_simp
    have e2 : p1.py + (p2.lat - p1.lat) * ((p2.py - p1.py) / (p2.lat - p1.lat))
        = p2.py := by field_simp
    simp only [e1, e2]

/-- A closed witness for C2 at a concrete pair of calibration points. -/
theorem two_point_roundtrip_witness :
    ((buildTransform [⟨0, 0, 10, 20⟩, ⟨100, 50, 11, 22⟩] 200 100).getD
        (fun _ _ => none)) 10 20 = some ((0 : ℚ) / 200, (0 : ℚ) / 100) ∧
      ((buildTransform [⟨0, 0, 10, 20⟩, ⟨100, 50, 11, 22⟩] 200 100).getD
        (fun _ _ => none)) 11 22 = some ((100 : ℚ) / 200, (50 : ℚ) / 100) := by
  obtain ⟨f, hf, h1, h2⟩ :=
    two_point_roundtrip ⟨0, 0, 10, 20⟩ ⟨100, 50, 11, 22⟩ 200 100
      (by norm_num [eps10]) (by norm_num [eps10]) (by norm_num) (by norm_num)
  rw [hf]
  exact ⟨h1, h2⟩

/-- C5: For exactly 2 calibration points whose latitude difference or
longitude difference has absolute value below `1e-10`, `buildTransform`
returns `null`. -/
theorem two_point_degenerate (p1 p2 : CalibrationPoint) (W H : ℚ)
    (h : |p2.lng - p1.lng| < eps10 ∨ |p2.lat - p1.lat| < eps10) :
    buildTransform [p1, p2] W H = none := by
  show twoPointTransform p1 p2 W H = none
  unfold twoPointTransform
  rw [if_pos h]

/-- A closed witness for C5: two points sharing a latitude yield `none`. -/
theorem two_point_degenerate_witness :
    buildTransform [⟨0, 0, 10, 20⟩, ⟨100, 50, 10, 22⟩] 200 100 = none :=
  two_point_degenerate ⟨0, 0, 10, 20⟩ ⟨100, 50, 10, 22⟩ 200 100
    (Or.inr (by norm_num [eps10]))

/-- C10: Whenever `buildTransform` returns a non-null transform, applying
it to any `(lat, lng)` always yields a coordinate pair, never `null`: the
`null` branch of the returned function's type is unreachable. -/
theorem transform_never_null (points : List CalibrationPoint) (W H : ℚ)
    (f : Transform) (h : buildTransform points W H = some f) :
    ∀ lat lng : ℚ, ∃ q : ℚ × ℚ, f lat lng = some q := by
  intro lat lng
  match points with
  | [] => exact absurd h (by simp [buildTransform])
  | [_] => exact absurd h (by simp [buildTransform])
  | [p1, p2] =>
      have h' : twoPointTransform p1 p2 W H = some f := h
      simp only [twoPointTransform] at h'
      by_cases hd : |p2.lng - p1.lng| < eps10 ∨ |p2.lat - p1.lat| < eps10
      · rw [if_pos hd] at h'; exact absurd h' (by simp)
      · rw [if_neg hd] at h'
        have hf := Option.some.inj h'
        refine ⟨((p1.px + (lng - p1.lng) * ((p2.px - p1.px) / (p2.lng - p1.lng))) / W,
                 (p1.py + (lat - p1.lat) * ((p2.py - p1.py) / (p2.lat - p1.lat))) / H), ?_⟩
        rw [← hf]
  | p1 :: p2 :: p3 :: rest =>
      have h' : leastSquaresTransform (p1 :: p2 :: p3 :: rest) W H = some f := h
      unfold leastSquaresTransform at h'
      generalize hx : solveLinear3 (normalMatrix (p1 :: p2 :: p3 :: rest))
          (rhsX (p1 :: p2 :: p3 :: rest)) = ox at h'
      generalize hy : solveLinear3 (normalMatrix (p1 :: p2 :: p3 :: rest))
          (rhsY (p1 :: p2 :: p3 :: rest)) = oy at h'
      rcases ox with _ | cx <;> rcases oy with _ | cy <;>
        simp only [mkAffine] at h'
      · exact absurd h' (by simp)
      · exact absurd h' (by simp)
      · exact absurd h' (by simp)
      · have hf := Option.some.inj h'
        refine ⟨((cx.a * lng + cx.b * lat + cx.c) / W,
                 (cy.a * lng + cy.b * lat + cy.c) / H), ?_⟩
        rw [← hf]

/-- A closed witness for C10 at the concrete C2 calibration pair. -/
theorem transform_never_null_witness :
    (((buildTransform
        [(⟨0, 0, 10, 20⟩ : CalibrationPoint), ⟨100, 50, 11, 22⟩] 200 100).getD
        (fun _ _ => none)) 0 0).isSome = true := by
  have h : buildTransform
      [(⟨0, 0, 10, 20⟩ : CalibrationPoint), ⟨100, 50, 11, 22⟩] 200 100
      = some (fun lat lng =>
          some ((0 + (lng - 20) * ((100 - 0) / (22 - 20))) / 200,
                (0 + (lat - 10) * ((50 - 0) / (11 - 10))) / 100)) := by
    show twoPointTransform _ _ _ _ = _
    simp only [twoPointTransform]
    rw [if_neg (by norm_num [eps10])]
  obtain ⟨q, hq⟩ := transform_never_null _ 200 100 _ h 0 0
  rw [h, Option.getD_some, hq]
  rfl

/-! ### Claims C3 and C4: the least-squares path -/

/-- Data lying exactly on an affine map makes the map's coefficient vector a
solution of the corresponding normal-equations system. -/
lemma normal_solves_of_affine (points : List CalibrationPoint)
    (g : CalibrationPoint → ℚ) (t : Vec3)
    (h : ∀ p ∈ points, g p = t.a * p.lng + t.b * p.lat + t.c) :
    solves (normalMatrix points)
      ⟨psum points (fun p => g p * p.lng), psum points (fun p => g p * p.lat),
       psum points g⟩ t := by
  induction points with
  | nil => simp [solves, normalMatrix, psum, Vec3.dot]
  | cons p ps ih =>
      have hp := h p (List.mem_cons_self p ps)
      obtain ⟨i1, i2, i3⟩ := ih (fun q hq => h q (List.mem_cons_of_mem p hq))
      simp only [solves, normalMatrix, psum, Vec3.dot, List.map_cons,
        List.sum_cons, List.length_cons] at i1 i2 i3 ⊢
      push_cast at i3 ⊢
      refine ⟨by linear_combination i1 - p.lng * hp,
              by linear_combination i2 - p.lat * hp,
              by linear_combination i3 - hp⟩

/-- A linear dependence among the `lng`/`lat`/`1` columns is a null vector of
the normal-equations matrix. -/
lemma normal_solves_null (points : List CalibrationPoint) (z : Vec3)
    (h : ∀ p ∈ points, z.a * p.lng + z.b * p.lat + z.c = 0) :
    solves (normalMatrix points) ⟨0, 0, 0⟩ z := by
  induction points with
  | nil => simp [solves, normalMatrix, psum, Vec3.dot]
  | cons p ps ih =>
      have hp := h p (List.mem_cons_self p ps)
      obtain ⟨i1, i2, i3⟩ := ih (fun q hq => h q (List.mem_cons_of_mem p hq))
      simp only [solves, normalMatrix, psum, Vec3.dot, List.map_cons,
        List.sum_cons, List.length_cons] at i1 i2 i3 ⊢
      push_cast at i3 ⊢
      refine ⟨by linear_combination i1 + p.lng * hp,
              by linear_combination i2 + p.lat * hp,
              by linear_combination i3 + hp⟩

/-- Solutions are stable under adding a null-space vector. -/
lemma solves_add_null (M : Mat3) (v : Vec3) (x z : Vec3)
    (hx : solves M v x) (hz : solves M ⟨0, 0, 0⟩ z) :
    solves M v ⟨x.a + z.a, x.b + z.b, x.c + z.c⟩ := by
  obtain ⟨a1, a2, a3⟩ := hx
  obtain ⟨b1, b2, b3⟩ := hz
  simp only [solves, Vec3.dot] at *
  refine ⟨by linear_combination a1 + b1, by linear_combination a2 + b2,
          by linear_combination a3 + b3⟩

/-- If the lng/lat/1 columns of the calibration data are linearly dependent,
each `solveLinear3` call on the normal matrix fails. -/
lemma solveLinear3_none_of_dependent (points : List CalibrationPoint)
    (b : Vec3) (z : Vec3) (hz0 : z ≠ ⟨0, 0, 0⟩)
    (hdep : ∀ p ∈ points, z.a * p.lng + z.b * p.lat + z.c = 0) :
    solveLinear3 (normalMatrix points) b = none := by
  rcases hres : solveLinear3 (normalMatrix points) b with _ | cx
  · rfl
  exfalso
  have hsol := solveLinear3_solves _ _ _ hres
  have hzs := normal_solves_null points z hdep
  have hadd := solves_add_null _ _ _ _ hsol hzs
  have heq := solveLinear3_unique _ _ _ hres _ hadd
  apply hz0
  have ea := congrArg Vec3.a heq
  have eb := congrArg Vec3.b heq
  have ec := congrArg Vec3.c heq
  simp only at ea eb ec
  ext <;> simp <;> linarith

/-- C4: A list of 3 or more calibration points that are all identical, or
whose lng/lat columns are linearly dependent, makes the normal-equations
system singular and `buildTransform` returns `null`. -/
theorem three_point_singular (points : List CalibrationPoint) (W H : ℚ)
    (hlen : 3 ≤ points.length)
    (hdeg : (∃ q, ∀ p ∈ points, p = q) ∨
      ∃ z : Vec3, z ≠ ⟨0, 0, 0⟩ ∧
        ∀ p ∈ points, z.a * p.lng + z.b * p.lat + z.c = 0) :
    buildTransform points W H = none := by
  have hz : ∃ z : Vec3, z ≠ ⟨0, 0, 0⟩ ∧
      ∀ p ∈ points, z.a * p.lng + z.b * p.lat + z.c = 0 := by
    rcases hdeg with ⟨q, hq⟩ | h
    · refine ⟨⟨1, 0, -q.lng⟩, ?_, fun p hp => by rw [hq p hp]; simp⟩
      intro hc
      have := congrArg Vec3.a hc
      simp at this
    · exact h
  obtain ⟨z, hz0, hdep⟩ := hz
  match points, hlen with
  | p1 :: p2 :: p3 :: rest, _ =>
      show leastSquaresTransform (p1 :: p2 :: p3 :: rest) W H = none
      unfold leastSquaresTransform
      rw [solveLinear3_none_of_dependent _ _ z hz0 hdep]
      rfl

/-- A closed witness for C4: three identical calibration points yield `none`. -/
theorem three_point_singular_witness :
    buildTransform [⟨5, 6, 10, 20⟩, ⟨5, 6, 10, 20⟩, ⟨5, 6, 10, 20⟩]
      200 100 = none :=
  three_point_singular _ 200 100 (by simp)
    (Or.inl ⟨⟨5, 6, 10, 20⟩, by intro p hp; fin_cases hp <;> rfl⟩)

/-- C3: For 3 or more calibration points whose pixel coordinates lie
exactly on one true affine map of (lng, lat), any transform produced by
`buildTransform`'s least-squares fit reproduces each input point's
normalized pixel position exactly. -/
theorem least_squares_exact (points : List CalibrationPoint) (W H : ℚ)
    (hlen : 3 ≤ points.length) (tx ty : Vec3)
    (hx : ∀ p ∈ points, p.px = tx.a * p.lng + tx.b * p.lat + tx.c)
    (hy : ∀ p ∈ points, p.py = ty.a * p.lng + ty.b * p.lat + ty.c)
    (f : Transform) (hf : buildTransform points W H = some f) :
    ∀ p ∈ points, f p.lat p.lng = some (p.px / W, p.py / H) := by
  have hsx : solves (normalMatrix points) (rhsX points) tx :=
    normal_solves_of_affine points (fun p => p.px) tx hx
  have hsy : solves (normalMatrix points) (rhsY points) ty :=
    normal_solves_of_affine points (fun p => p.py) ty hy
  match points, hlen, hx, hy, hsx, hsy with
  | p1 :: p2 :: p3 :: rest, _, hx, hy, hsx, hsy =>
      have h' : leastSquaresTransform (p1 :: p2 :: p3 :: rest) W H = some f := hf
      unfold leastSquaresTransform at h'
      generalize hresx : solveLinear3 (normalMatrix (p1 :: p2 :: p3 :: rest))
          (rhsX (p1 :: p2 :: p3 :: rest)) = ox at h'
      generalize hresy : solveLinear3 (normalMatrix (p1 :: p2 :: p3 :: rest))
          (rhsY (p1 :: p2 :: p3 :: rest)) = oy at h'
      rcases ox with _ | cx <;> rcases oy with _ | cy <;>
        simp only [mkAffine] at h'
      · exact absurd h' (by simp)
      · exact absurd h' (by simp)
      · exact absurd h' (by simp)
      · obtain rfl : tx = cx := solveLinear3_unique _ _ _ hresx _ hsx
        obtain rfl : ty = cy := solveLinear3_unique _ _ _ hresy _ hsy
        have hf' := Option.some.inj h'
        intro p hp
        rw [← hf']
        simp only [Option.some.injEq, Prod.mk.injEq]
        constructor
        · rw [hx p hp]
        · rw [hy p hp]

/-- The concrete calibration triple used by the C3 witness: three points on
the affine map `px = 100·lng`, `py = 100·lat`. -/
def c3Points : List CalibrationPoint :=
  [⟨0, 0, 0, 0⟩, ⟨100, 0, 0, 1⟩, ⟨0, 100, 1, 0⟩]

lemma c3_normalMatrix : normalMatrix c3Points = ⟨⟨1, 0, 1⟩, ⟨0, 1, 1⟩, ⟨1, 1, 3⟩⟩ := by
  simp only [c3Points, normalMatrix, psum, List.map_cons, List.map_nil,
    List.sum_cons, List.sum_nil, List.length_cons, List.length_nil,
    Mat3.mk.injEq, Vec3.mk.injEq]
  norm_num

lemma c3_rhsX : rhsX c3Points = ⟨100, 0, 100⟩ := by
  simp only [c3Points, rhsX, psum, List.map_cons, List.map_nil,
    List.sum_cons, List.sum_nil, Vec3.mk.injEq]
  norm_num

lemma c3_rhsY : rhsY c3Points = ⟨0, 100, 100⟩ := by
  simp only [c3Points, rhsY, psum, List.map_cons, List.map_nil,
    List.sum_cons, List.sum_nil, Vec3.mk.injEq]
  norm_num

lemma c3_solveX : solveLinear3 (⟨⟨1, 0, 1⟩, ⟨0, 1, 1⟩, ⟨1, 1, 3⟩⟩ : Mat3)
    ⟨100, 0, 100⟩ = some ⟨100, 0, 0⟩ := by
  simp only [solveLinear3, swap0, swap1, elim0, elim1, backSub, eps12]
  norm_num

lemma c3_solveY : solveLinear3 (⟨⟨1, 0, 1⟩, ⟨0, 1, 1⟩, ⟨1, 1, 3⟩⟩ : Mat3)
    ⟨0, 100, 100⟩ = some ⟨0, 100, 0⟩ := by
  simp only [solveLinear3, swap0, swap1, elim0, elim1, backSub, eps12]
  norm_num

lemma c3_buildTransform : buildTransform c3Points 200 100 =
    some (fun lat lng : ℚ =>
      some (((100 : ℚ) * lng + 0 * lat + 0) / 200,
            ((0 : ℚ) * lng + 100 * lat + 0) / 100)) := by
  show leastSquaresTransform c3Points 200 100 = _
  unfold leastSquaresTransform
  rw [c3_normalMatrix, c3_rhsX, c3_rhsY, c3_solveX, c3_solveY]
  rfl

/-- A closed witness for C3: the fitted transform at the second calibration
point (lat 0, lng 1) returns exactly its pixel fraction (100/200, 0/100). -/
theorem least_squares_exact_witness :
    (fun lat lng : ℚ =>
        some (((100 : ℚ) * lng + 0 * lat + 0) / 200,
              ((0 : ℚ) * lng + 100 * lat + 0) / 100)) (0 : ℚ) (1 : ℚ)
      = some ((100 : ℚ) / 200, (0 : ℚ) / 100) :=
  least_squares_exact c3Points 200 100
    (by simp [c3Points]) ⟨100, 0, 0⟩ ⟨0, 100, 0⟩
    (by intro p hp; fin_cases hp <;> norm_num [c3Points])
    (by intro p hp; fin_cases hp <;> norm_num [c3Points])
    _ c3_buildTransform ⟨100, 0, 0, 1⟩
    (List.mem_cons_of_mem _ (List.mem_cons_self _ _))

/-! ### Claim C6: ray-casting point-in-polygon -/

/-- A polygon vertex / GPS coordinate. -/
structure GeoPoint where
  lat : ℚ
  lng : ℚ
deriving DecidableEq

/-- One edge test of the ray-casting loop: does the edge from vertex `pi` to
vertex `pj` cross the horizontal ray from `(lat, lng)`? -/
def pipEdge (lat lng : ℚ) (pi pj : GeoPoint) : Bool :=
  let xi := pi.lng
  let yi := pi.lat
  let xj := pj.lng
  let yj := pj.lat
  (decide (yi > lat) != decide (yj > lat)) &&
    decide (lng < (xj - xi) * (lat - yi) / (yj - yi) + xi)

/-- Ray-casting point-in-polygon (`pointInPolygon` from the map-zones
module): iterate `i` over the vertices with `j` the previous index, toggling
on each crossing. -/
def pointInPolygon (lat lng : ℚ) (polygon : List GeoPoint) : Bool :=
  let n := polygon.length
  (List.range n).foldl
    (fun inside i =>
      let j := if i = 0 then n - 1 else i - 1
      if pipEdge lat lng (polygon.getD i ⟨0, 0⟩) (polygon.getD j ⟨0, 0⟩)
      then !inside else inside)
    false

lemma pip_rhs_symm (lat : ℚ) (p q : GeoPoint) (h : p.lat ≠ q.lat) :
    (q.lng - p.lng) * (lat - p.lat) / (q.lat - p.lat) + p.lng
      = (p.lng - q.lng) * (lat - q.lat) / (p.lat - q.lat) + q.lng := by
  have h1 : q.lat - p.lat ≠ 0 := sub_ne_zero.mpr (Ne.symm h)
  have h2 : p.lat - q.lat ≠ 0 := sub_ne_zero.mpr h
  field_simp
  ring

/-- The edge test is symmetric: traversing the same segment in either
direction gives the same crossing verdict (exact arithmetic). -/
lemma pipEdge_symm (lat lng : ℚ) (p q : GeoPoint) :
    pipEdge lat lng p q = pipEdge lat lng q p := by
  unfold pipEdge
  by_cases hp : p.lat > lat <;> by_cases hq : q.lat > lat
  · simp [hp, hq]
  · have hne : p.lat ≠ q.lat := fun h => hq (h ▸ hp)
    simp [hp, hq, pip_rhs_symm lat p q hne]
  · have hne : p.lat ≠ q.lat := fun h => hp (h ▸ hq)
    simp [hp, hq, pip_rhs_symm lat p q hne]
  · simp [hp, hq]

/-- C6: A polygon with fewer than 3 vertices classifies every test point
as outside. -/
theorem small_polygon_outside (polygon : List GeoPoint)
    (h : polygon.length < 3) (lat lng : ℚ) :
    pointInPolygon lat lng polygon = false := by
  match polygon, h with
  | [], _ => rfl
  | [p], _ =>
      show pointInPolygon lat lng [p] = false
      have hr : List.range 1 = [0] := rfl
      simp only [pointInPolygon, List.length_cons, List.length_nil, hr,
        List.foldl_cons, List.foldl_nil]
      norm_num [List.getD_cons_zero, pipEdge]
  | [p, q], _ =>
      show pointInPolygon lat lng [p, q] = false
      have hr : List.range 2 = [0, 1] := rfl
      simp only [pointInPolygon, List.length_cons, List.length_nil, hr,
        List.foldl_cons, List.foldl_nil]
      norm_num [List.getD]
      rw [pipEdge_symm lat lng q p]
      cases hb : pipEdge lat lng p q <;> simp [hb]

/-- A closed witness for C6: a 2-vertex "polygon" puts `(5, 5)` outside. -/
theorem small_polygon_outside_witness :
    pointInPolygon 5 5 [⟨0, 0⟩, ⟨10, 10⟩] = false :=
  small_polygon_outside [⟨0, 0⟩, ⟨10, 10⟩] (by simp) 5 5

/-! ### Claims C7 and C8: recurrence date logic -/

/-- A calendar date `"YYYY-MM-DD"`, modelled by its numeric components.
Canonical date strings compare lexicographically exactly as the component
triples do. -/
structure DateStr where
  y : ℕ
  m : ℕ
  d : ℕ
deriving DecidableEq

/-- The JavaScript string `<` on canonical `"YYYY-MM-DD"` strings:
lexicographic comparison of the components. -/
def dateLt (a b : DateStr) : Bool :=
  decide (a.y < b.y) ||
    (decide (a.y = b.y) && (decide (a.m < b.m) ||
      (decide (a.m = b.m) && decide (a.d < b.d))))

/-- Days since the civil era origin 0000-03-01 (Gregorian, proleptic):
the standard `days_from_civil` computation underlying the JavaScript UTC
`Date` arithmetic, shifted to stay in `ℕ`. -/
def civilDays (dt : DateStr) : ℕ :=
  let y := if dt.m ≤ 2 then dt.y - 1 else dt.y
  let era := y / 400
  let yoe := y - era * 400
  let mp := if 2 < dt.m then dt.m - 3 else dt.m + 9
  let doy := (153 * mp + 2) / 5 + dt.d - 1
  let doe := yoe * 365 + yoe / 4 - yoe / 100 + doy
  era * 146097 + doe

/-- `getUTCDay()` of a UTC midnight date: 0 = Sunday … 6 = Saturday
(1970-01-01, `civilDays` 719468, was a Thursday). -/
def dayOfWeek (dt : DateStr) : ℕ := (civilDays dt + 3) % 7

/-- Gregorian leap year. -/
def isLeap (y : ℕ) : Bool :=
  (decide (y % 4 = 0) && !decide (y % 100 = 0)) || decide (y % 400 = 0)

/-- Number of days in a month. -/
def daysInMonth (y m : ℕ) : ℕ :=
  if m = 2 then (if isLeap y then 29 else 28)
  else if m = 4 ∨ m = 6 ∨ m = 9 ∨ m = 11 then 30
  else 31

/-- The successor date: `setUTCDate(getUTCDate() + 1)` on a canonical date. -/
def nextDate (dt : DateStr) : DateStr :=
  if dt.d < daysInMonth dt.y dt.m then ⟨dt.y, dt.m, dt.d + 1⟩
  else if dt.m < 12 then ⟨dt.y, dt.m + 1, 1⟩
  else ⟨dt.y + 1, 1, 1⟩

/-- The `while (cur <= end)` loop of `getDaysInRange`; the timestamp
comparison `cur <= end` is the `civilDays` comparison, and the fuel is the
loop's exact iteration count on canonical dates. -/
def getDaysInRangeGo (endD : DateStr) : ℕ → DateStr → List DateStr
  | 0, _ => []
  | fuel + 1, cur =>
      if civilDays cur ≤ civilDays endD then
        cur :: getDaysInRangeGo endD fuel (nextDate cur)
      else []

/-- `getDaysInRange`: all dates from `startDate` to `endDate` inclusive. -/
def getDaysInRange (startD endD : DateStr) : List DateStr :=
  getDaysInRangeGo endD (civilDays endD + 1 - civilDays startD) startD

/-- A recurring task rule (the fields read by `doesRuleApplyToDate` and
`ensureRecurringAssignments`). -/
structure Rule where
  ruleId : ℕ
  workerIds : List ℕ
  title : String
  description : Option String
  estimatedMinutes : Option ℕ
  taskTemplateId : Option ℕ
  recurrenceType : String
  weekdays : Option (List ℕ)
  startDate : DateStr
  endDate : Option DateStr
  isActive : Bool
deriving DecidableEq

/-- `doesRuleApplyToDate`: date-window guards, then the recurrence-type
switch on the date's UTC weekday. -/
def doesRuleApplyToDate (rule : Rule) (dateStr : DateStr) : Bool :=
  if dateLt dateStr rule.startDate then false
  else if (match rule.endDate with
           | some e => dateLt e dateStr
           | none => false) then false
  else
    let dow := dayOfWeek dateStr
    match rule.recurrenceType with
    | "daily" => true
    | "weekdays" => decide (1 ≤ dow) && decide (dow ≤ 5)
    | "weekly" =>
        match rule.weekdays with
        | some (w :: _) => decide (w = dow)
        | _ => false
    | "custom" =>
        match rule.weekdays with
        | some l => l.contains dow
        | none => false
    | _ => false

/-- The concrete weekly-Monday rule of C7. -/
def c7Rule : Rule :=
  { ruleId := 1, workerIds := [1], title := "t", description := none,
    estimatedMinutes := none, taskTemplateId := none,
    recurrenceType := "weekly", weekdays := some [1],
    startDate := ⟨2024, 1, 1⟩, endDate := none, isActive := true }

/-- C7: The weekly rule with weekday Monday starting 2024-01-01 fires,
over the 14-day range 2024-01-01 … 2024-01-14, exactly on 2024-01-01 and
2024-01-08. -/
theorem weekly_monday_fires :
    (getDaysInRange ⟨2024, 1, 1⟩ ⟨2024, 1, 14⟩).length = 14 ∧
      (getDaysInRange ⟨2024, 1, 1⟩ ⟨2024, 1, 14⟩).filter
          (fun d => doesRuleApplyToDate c7Rule d)
        = [⟨2024, 1, 1⟩, ⟨2024, 1, 8⟩] := by
  constructor <;> decide

/-- C8: A rule never fires after its `endDate` (for any recurrence type),
nor before its `startDate`. -/
theorem rule_boundary :
    (∀ (rule : Rule) (e dt : DateStr), rule.endDate = some e →
        dateLt e dt = true → doesRuleApplyToDate rule dt = false) ∧
    (∀ (rule : Rule) (dt : DateStr), dateLt dt rule.startDate = true →
        doesRuleApplyToDate rule dt = false) := by
  constructor
  · intro rule e dt he hlt
    unfold doesRuleApplyToDate
    rw [he]
    simp only [hlt]
    split_ifs <;> rfl
  · intro rule dt hlt
    unfold doesRuleApplyToDate
    simp only [hlt]
    rfl

/-- The daily rule with `endDate` 2024-01-05 used by the C8 witness. -/
def c8Rule : Rule :=
  { ruleId := 1, workerIds := [1], title := "t", description := none,
    estimatedMinutes := none, taskTemplateId := none,
    recurrenceType := "daily", weekdays := none,
    startDate := ⟨2024, 1, 1⟩, endDate := some ⟨2024, 1, 5⟩, isActive := true }

/-- A closed witness for C8: a daily rule ending 2024-01-05 does not fire on
2024-01-06, and no rule fires before its start date. -/
theorem rule_boundary_witness :
    doesRuleApplyToDate c8Rule ⟨2024, 1, 6⟩ = false ∧
      doesRuleApplyToDate c7Rule ⟨2023, 12, 31⟩ = false :=
  ⟨rule_boundary.1 c8Rule ⟨2024, 1, 5⟩ ⟨2024, 1, 6⟩ rfl (by decide),
   rule_boundary.2 c7Rule ⟨2023, 12, 31⟩ (by decide)⟩

/-! ### Claim C1: the recurring-assignment materializer -/

/-- A task-assignment document (the fields `ensureRecurringAssignments`
reads and writes; the database is modelled as the list of documents). -/
structure Assignment where
  organizationId : ℕ
  workerId : ℕ
  assignedDate : DateStr
  title : String
  description : Option String
  estimatedMinutes : Option ℕ
  taskTemplateId : Option ℕ
  recurringRuleId : Option ℕ
  status : String
  createdAt : ℕ
  updatedAt : ℕ
deriving DecidableEq

/-- The existence check of the materializer: the `by_workerId_date` index
query filtered on `recurringRuleId`, i.e. is there an assignment for this
exact (worker, date, rule) triple? -/
def existsAssignment (db : List Assignment) (w : ℕ) (d : DateStr)
    (rid : ℕ) : Bool :=
  db.any fun a =>
    decide (a.workerId = w) && decide (a.assignedDate = d) &&
      decide (a.recurringRuleId = some rid)

/-- The document inserted for a firing (rule, date, worker) triple. -/
def newAssignment (orgId : ℕ) (rule : Rule) (w : ℕ) (d : DateStr)
    (now : ℕ) : Assignment :=
  { organizationId := orgId, workerId := w, assignedDate := d,
    title := rule.title, description := rule.description,
    estimatedMinutes := rule.estimatedMinutes,
    taskTemplateId := rule.taskTemplateId,
    recurringRuleId := some rule.ruleId, status := "pending",
    createdAt := now, updatedAt := now }

/-- The inner worker loop: check-then-insert for each worker of the rule,
threading the database and the created counter. -/
def ensureWorkers (orgId : ℕ) (rule : Rule) (d : DateStr) (now : ℕ) :
    List ℕ → List Assignment × ℕ → List Assignment × ℕ
  | [], acc => acc
  | w :: ws, (db, created) =>
      if existsAssignment db w d rule.ruleId then
        ensureWorkers orgId rule d now ws (db, created)
      else
        ensureWorkers orgId rule d now ws
          (db ++ [newAssignment orgId rule w d now], created + 1)

/-- The date loop: skip dates the rule does not fire on (`continue`),
otherwise run the worker loop. -/
def ensureDays (orgId : ℕ) (rule : Rule) (now : ℕ) :
    List DateStr → List Assignment × ℕ → List Assignment × ℕ
  | [], acc => acc
  | d :: ds, acc =>
      if doesRuleApplyToDate rule d then
        ensureDays orgId rule now ds
          (ensureWorkers orgId rule d now rule.workerIds acc)
      else ensureDays orgId rule now ds acc

/-- The outer rule loop. -/
def ensureRules (orgId : ℕ) (now : ℕ) (days : List DateStr) :
    List Rule → List Assignment × ℕ → List Assignment × ℕ
  | [], acc => acc
  | r :: rs, acc =>
      ensureRules orgId now days rs (ensureDays orgId r now days acc)

/-- `ensureRecurringAssignments`: materialize all active rules over the days
of the requested range, starting the created counter at 0; returns the new
database and the count of newly created assignments. -/
def ensureRecurringAssignments (orgId : ℕ) (rules : List Rule)
    (startD endD : DateStr) (now : ℕ) (db : List Assignment) :
    List Assignment × ℕ :=
  ensureRules orgId now (getDaysInRange startD endD)
    (rules.filter fun r => r.isActive) (db, 0)

/-- Every firing date of the rule in `days` has an assignment for every one
of the rule's workers. -/
def covered (rule : Rule) (days : List DateStr) (db : List Assignment) : Bool :=
  days.all fun d =>
    !doesRuleApplyToDate rule d ||
      rule.workerIds.all fun w => existsAssignment db w d rule.ruleId

/-- Every active rule is fully covered over `days`: the range is fully
materialized. -/
def fullyMaterialized (rules : List Rule) (days : List DateStr)
    (db : List Assignment) : Bool :=
  rules.all fun r => !r.isActive || covered r days db

lemma existsAssignment_mono (db t : List Assignment) (w : ℕ) (d : DateStr)
    (rid : ℕ) (h : existsAssignment db w d rid = true) :
    existsAssignment (db ++ t) w d rid = true := by
  simp only [existsAssignment, List.any_append, Bool.or_eq_true]
  exact Or.inl h

lemma existsAssignment_new (orgId : ℕ) (rule : Rule) (w : ℕ) (d : DateStr)
    (now : ℕ) (db : List Assignment) :
    existsAssignment (db ++ [newAssignment orgId rule w d now]) w d
      rule.ruleId = true := by
  simp [existsAssignment, List.any_append, newAssignment]

lemma ensureWorkers_append (orgId : ℕ) (rule : Rule) (d : DateStr) (now : ℕ)
    (ws : List ℕ) (db : List Assignment) (c : ℕ) :
    ∃ t, (ensureWorkers orgId rule d now ws (db, c)).1 = db ++ t := by
  induction ws generalizing db c with
  | nil => exact ⟨[], by simp [ensureWorkers]⟩
  | cons w ws ih =>
      unfold ensureWorkers
      cases h : existsAssignment db w d rule.ruleId
      · rw [if_neg (by simp [h])]
        obtain ⟨t, ht⟩ := ih (db ++ [newAssignment orgId rule w d now]) (c + 1)
        exact ⟨newAssignment orgId rule w d now :: t,
          by rw [ht, List.append_assoc]; rfl⟩
      · rw [if_pos rfl]
        exact ih db c

lemma ensureWorkers_covers (orgId : ℕ) (rule : Rule) (d : DateStr) (now : ℕ)
    (ws : List ℕ) (db : List Assignment) (c : ℕ) :
    ∀ w ∈ ws, existsAssignment (ensureWorkers orgId rule d now ws (db, c)).1
      w d rule.ruleId = true := by
  induction ws generalizing db c with
  | nil => intro w hw; cases hw
  | cons w0 ws ih =>
      intro w hw
      unfold ensureWorkers
      cases h : existsAssignment db w0 d rule.ruleId
      · rw [if_neg (by simp [h])]
        rcases List.mem_cons.mp hw with rfl | hw'
        · obtain ⟨t, ht⟩ := ensureWorkers_append orgId rule d now ws
            (db ++ [newAssignment orgId rule w d now]) (c + 1)
          rw [ht]
          exact existsAssignment_mono _ _ _ _ _
            (existsAssignment_new orgId rule w d now db)
        · exact ih _ _ w hw'
      · rw [if_pos rfl]
        rcases List.mem_cons.mp hw with rfl | hw'
        · obtain ⟨t, ht⟩ := ensureWorkers_append orgId rule d now ws db c
          rw [ht]
          exact existsAssignment_mono _ _ _ _ _ h
        · exact ih _ _ w hw'

lemma ensureDays_append (orgId : ℕ) (rule : Rule) (now : ℕ)
    (days : List DateStr) (db : List Assignment) (c : ℕ) :
    ∃ t, (ensureDays orgId rule now days (db, c)).1 = db ++ t := by
  induction days generalizing db c with
  | nil => exact ⟨[], by simp [ensureDays]⟩
  | cons d ds ih =>
      unfold ensureDays
      cases h : doesRuleApplyToDate rule d
      · rw [if_neg (by simp [h])]
        exact ih db c
      · rw [if_pos rfl]
        obtain ⟨t1, ht1⟩ := ensureWorkers_append orgId rule d now
          rule.workerIds db c
        rcases hew : ensureWorkers orgId rule d now rule.workerIds (db, c)
          with ⟨db1, c1⟩
        rw [hew] at ht1
        simp only at ht1
        obtain ⟨t2, ht2⟩ := ih db1 c1
        exact ⟨t1 ++ t2, by rw [ht2, ht1, List.append_assoc]⟩

lemma ensureRules_append (orgId : ℕ) (now : ℕ) (days : List DateStr)
    (rules : List Rule) (db : List Assignment) (c : ℕ) :
    ∃ t, (ensureRules orgId now days rules (db, c)).1 = db ++ t := by
  induction rules generalizing db c with
  | nil => exact ⟨[], by simp [ensureRules]⟩
  | cons r rs ih =>
      unfold ensureRules
      obtain ⟨t1, ht1⟩ := ensureDays_append orgId r now days db c
      rcases hed : ensureDays orgId r now days (db, c) with ⟨db1, c1⟩
      rw [hed] at ht1
      simp only at ht1
      obtain ⟨t2, ht2⟩ := ih db1 c1
      exact ⟨t1 ++ t2, by rw [ht2, ht1, List.append_assoc]⟩

lemma covered_mono (rule : Rule) (days : List DateStr)
    (db t : List Assignment) (h : covered rule days db = true) :
    covered rule days (db ++ t) = true := by
  simp only [covered, List.all_eq_true, Bool.or_eq_true,
    Bool.not_eq_true'] at h ⊢
  intro d hd
  rcases h d hd with h1 | h2
  · exact Or.inl h1
  · exact Or.inr fun w hw => existsAssignment_mono _ _ _ _ _ (h2 w hw)

lemma ensureDays_covered (orgId : ℕ) (rule : Rule) (now : ℕ)
    (days : List DateStr) (db : List Assignment) (c : ℕ) :
    covered rule days (ensureDays orgId rule now days (db, c)).1 = true := by
  induction days generalizing db c with
  | nil => simp [covered]
  | cons d ds ih =>
      unfold ensureDays
      cases h : doesRuleApplyToDate rule d
      · rw [if_neg (by simp [h])]
        simp only [covered, List.all_cons, Bool.and_eq_true]
        refine ⟨by simp [h], ?_⟩
        simpa [covered] using ih db c
      · rw [if_pos rfl]
        rcases hew : ensureWorkers orgId rule d now rule.workerIds (db, c)
          with ⟨db1, c1⟩
        have hwcov := ensureWorkers_covers orgId rule d now rule.workerIds db c
        rw [hew] at hwcov
        simp only at hwcov
        obtain ⟨t, ht⟩ := ensureDays_append orgId rule now ds db1 c1
        simp only [covered, List.all_cons, Bool.and_eq_true]
        constructor
        · rw [ht]
          simp only [Bool.or_eq_true, List.all_eq_true]
          exact Or.inr fun w hw =>
            existsAssignment_mono _ _ _ _ _ (hwcov w hw)
        · simpa [covered] using ih db1 c1

lemma ensureRules_covered (orgId : ℕ) (now : ℕ) (days : List DateStr)
    (rules : List Rule) (db : List Assignment) (c : ℕ) :
    ∀ r ∈ rules,
      covered r days (ensureRules orgId now days rules (db, c)).1 = true := by
  induction rules generalizing db c with
  | nil => intro r hr; cases hr
  | cons r0 rs ih =>
      intro r hr
      unfold ensureRules
      rcases hed : ensureDays orgId r0 now days (db, c) with ⟨db1, c1⟩
      rcases List.mem_cons.mp hr with rfl | hr'
      · have hc := ensureDays_covered orgId r now days db c
        rw [hed] at hc
        simp only at hc
        obtain ⟨t, ht⟩ := ensureRules_append orgId now days rs db1 c1
        rw [ht]
        exact covered_mono _ _ _ _ hc
      · exact ih db1 c1 r hr'

lemma ensureWorkers_id (orgId : ℕ) (rule : Rule) (d : DateStr) (now : ℕ)
    (ws : List ℕ) (db : List Assignment) (c : ℕ)
    (h : ∀ w ∈ ws, existsAssignment db w d rule.ruleId = true) :
    ensureWorkers orgId rule d now ws (db, c) = (db, c) := by
  induction ws with
  | nil => rfl
  | cons w ws ih =>
      unfold ensureWorkers
      rw [if_pos (h w (List.mem_cons_self w ws))]
      exact ih fun w' hw' => h w' (List.mem_cons_of_mem w hw')

lemma ensureDays_id (orgId : ℕ) (rule : Rule) (now : ℕ)
    (days : List DateStr) (db : List Assignment) (c : ℕ)
    (h : covered rule days db = true) :
    ensureDays orgId rule now days (db, c) = (db, c) := by
  induction days with
  | nil => rfl
  | cons d ds ih =>
      simp only [covered, List.all_cons, Bool.and_eq_true] at h
      obtain ⟨h1, h2⟩ := h
      unfold ensureDays
      cases ha : doesRuleApplyToDate rule d
      · rw [if_neg (by simp [ha])]
        exact ih h2
      · rw [if_pos rfl]
        rw [ensureWorkers_id orgId rule d now rule.workerIds db c ?_]
        · exact ih h2
        · simp only [ha, Bool.not_true, Bool.false_or,
            List.all_eq_true] at h1
          exact h1

lemma ensureRules_id (orgId : ℕ) (now : ℕ) (days : List DateStr)
    (rules : List Rule) (db : List Assignment) (c : ℕ)
    (h : ∀ r ∈ rules, covered r days db = true) :
    ensureRules orgId now days rules (db, c) = (db, c) := by
  induction rules with
  | nil => rfl
  | cons r rs ih =>
      unfold ensureRules
      rw [ensureDays_id orgId r now days db c (h r (List.mem_cons_self r rs))]
      exact ih fun r' hr' => h r' (List.mem_cons_of_mem r hr')

/-- C1: Calling the materializer twice with the same rule set and date
range is idempotent: after the first call every (worker, firing date, active
rule) triple has an assignment, and the second call inserts nothing and
returns a count of 0. -/
theorem ensure_recurring_idempotent (orgId : ℕ) (rules : List Rule)
    (startD endD : DateStr) (now now2 : ℕ) (db : List Assignment) :
    fullyMaterialized rules (getDaysInRange startD endD)
        (ensureRecurringAssignments orgId rules startD endD now db).1 = true ∧
      ensureRecurringAssignments orgId rules startD endD now2
          (ensureRecurringAssignments orgId rules startD endD now db).1
        = ((ensureRecurringAssignments orgId rules startD endD now db).1,
           0) := by
  have hcov : ∀ r ∈ rules.filter (fun r => r.isActive),
      covered r (getDaysInRange startD endD)
        (ensureRecurringAssignments orgId rules startD endD now db).1
          = true := by
    intro r hr
    unfold ensureRecurringAssignments
    exact ensureRules_covered orgId now (getDaysInRange startD endD) _ db 0 r hr
  constructor
  · simp only [fullyMaterialized, List.all_eq_true, Bool.or_eq_true,
      Bool.not_eq_true']
    intro r hr
    cases ha : r.isActive
    · exact Or.inl rfl
    · exact Or.inr (hcov r (List.mem_filter.mpr ⟨hr, by simp [ha]⟩))
  · conv_lhs => unfold ensureRecurringAssignments
    exact ensureRules_id orgId now2 (getDaysInRange startD endD) _ _ 0 hcov

/-! ### Claim C9: floor-plan worker-dot placement -/

/-- The rendered position of a worker dot: center coordinates and the
validity flag passed to `FloorPlanWorkerDot`. -/
structure DisplayPos where
  cx : ℚ
  cy : ℚ
  hasValid : Bool
deriving DecidableEq

/-- Whether a transformed fraction lies within the tolerance window
`[-0.1, 1.1]` on both axes. -/
def fracInBounds (p : ℚ × ℚ) : Bool :=
  decide (-(1 / 10) ≤ p.1) && decide (p.1 ≤ 11 / 10) &&
    decide (-(1 / 10) ≤ p.2) && decide (p.2 ≤ 11 / 10)

/-- The worker-dot placement logic of `FloorPlanViewer`: apply the transform
when both a location and a transform exist; the dot is valid only when the
fraction is within `[-0.1, 1.1]` on both axes, in which case it is scaled by
the display size; otherwise it falls back to the display center. -/
def workerDisplayPos (transform : Option Transform) (loc : Option (ℚ × ℚ))
    (dispW dispH : ℚ) : DisplayPos :=
  let pos : Option (ℚ × ℚ) :=
    match loc, transform with
    | some l, some t => t l.1 l.2
    | _, _ => none
  match pos with
  | some p =>
      if fracInBounds p then ⟨p.1 * dispW, p.2 * dispH, true⟩
      else ⟨dispW / 2, dispH / 2, false⟩
  | none => ⟨dispW / 2, dispH / 2, false⟩

/-- C9: With a worker location present: the rendered dot is the fraction
scaled by the display size exactly when the transform exists and yields a
fraction within `[-0.1, 1.1]` on both axes; with a null transform, or a
fraction out of bounds on either axis, the dot is the display center with
the invalid flag — never a clamped position. -/
theorem worker_display_pos_cases (transform : Option Transform)
    (l : ℚ × ℚ) (dispW dispH : ℚ) :
    (∀ t, transform = some t → ∀ p, t l.1 l.2 = some p →
      fracInBounds p = true →
        workerDisplayPos transform (some l) dispW dispH
          = ⟨p.1 * dispW, p.2 * dispH, true⟩) ∧
    (transform = none →
      workerDisplayPos transform (some l) dispW dispH
        = ⟨dispW / 2, dispH / 2, false⟩) ∧
    (∀ t, transform = some t → ∀ p, t l.1 l.2 = some p →
      fracInBounds p = false →
        workerDisplayPos transform (some l) dispW dispH
          = ⟨dispW / 2, dispH / 2, false⟩) := by
  refine ⟨?_, ?_, ?_⟩
  · rintro t rfl p hp hb
    simp only [workerDisplayPos, hp, if_pos hb]
  · rintro rfl
    rfl
  · rintro t rfl p hp hb
    simp only [workerDisplayPos, hp]
    rw [if_neg (by simp [hb])]

/-- A closed witness for C9: an in-bounds fraction is scaled, an out-of-range
fraction and a null transform both fall back to the display center. -/
theorem worker_display_pos_witness :
    workerDisplayPos (some fun lat lng => some (lat, lng)) (some (1/2, 1/4))
        600 400 = ⟨1/2 * 600, 1/4 * 400, true⟩ ∧
    workerDisplayPos none (some (1/2, 1/4)) 600 400
        = ⟨600 / 2, 400 / 2, false⟩ ∧
    workerDisplayPos (some fun lat lng => some (lat, lng)) (some (2, 1/4))
        600 400 = ⟨600 / 2, 400 / 2, false⟩ :=
  ⟨(worker_display_pos_cases (some fun lat lng => some (lat, lng))
      (1/2, 1/4) 600 400).1 _ rfl (1/2, 1/4) rfl (by norm_num [fracInBounds]),
   (worker_display_pos_cases none (1/2, 1/4) 600 400).2.1 rfl,
   (worker_display_pos_cases (some fun lat lng => some (lat, lng))
      (2, 1/4) 600 400).2.2 _ rfl (2, 1/4) rfl (by norm_num [fracInBounds])⟩

end MomentumTracker
